import Mathlib

/-!
# Verification of the auto-rsync coordination core

Shallow embedding of `src/auto_rsync/__init__.py` (celtra/auto-rsync): a
watchdog event handler that sets a shared `threading.Event` on every
filesystem notification, a worker thread (`RSyncThread.run`) that polls the
event, clears it and invokes one `rsync` pass, and a `main` entry point that
wires startup and signal-driven shutdown.

The embedding models:
* the `threading.Event` cell (`set` / `clear` / `is_set`) as a `Bool`;
* the worker loop as a small-step state machine (`WState`, `workerStepE`)
  whose environment steps (`Act.raise`, `Act.shutdown`) model the watcher
  thread and the signal handler;
* the non-atomic observe-then-clear sequence of the worker as a
  micro-interleaving semantics (`microRun`);
* the handler callbacks (`on_moved` etc.) as log-line plus raise-count;
* `main`'s startup and shutdown sequencing as explicit action traces;
* the option-file concatenation and `shlex.split`-style whitespace
  tokenization of the produced `rsync` command line (over `List Char`,
  for inputs free of quoting metacharacters).
-/

namespace AutoRsync

/-! ## Definitions

### The shared event cell (`threading.Event`)

`RSyncEventHandler.rsync` (line 98-99) does `self.rsync_event.set()`; the
worker reads `self.rsync_event.is_set()` (line 118) and clears with
`self.rsync_event.clear()` (line 121). -/

/-- The `Event.set()` operation: the flag becomes true regardless of its
previous value. -/
def eventSet (_ : Bool) : Bool := true

/-- The `Event.clear()` operation: the flag becomes false. -/
def eventClear (_ : Bool) : Bool := false

/-- The `Event.is_set()` operation: reads the flag. -/
def eventIsSet (s : Bool) : Bool := s

/-- The worker's take: observe the flag (`is_set`), then clear it
(`clear`), returning the observed value and the new flag state.  This is
the composite the worker loop performs at lines 117-121, taken here as one
atomic whole (its non-atomicity is modelled separately by `microRun`). -/
def take (s : Bool) : Bool × Bool := (eventIsSet s, eventClear s)

/-- `n` consecutive `raise()` calls (`rsync_event.set()`), applied to a
flag state. -/
def raiseN : Nat → Bool → Bool
  | 0, s => s
  | n + 1, s => eventSet (raiseN n s)

/-! ### The worker loop (`RSyncThread.run`, lines 116-136)

```
while not self.shutdown_event.is_set():              -- pc = outerCheck
    while not self.shutdown_event.is_set() and \
          not self.rsync_event.is_set():             -- pc = innerCheck
        time.sleep(0.1)
    self.rsync_event.clear()                         -- pc = doClear
    ... subprocess.call(shlex.split(cmd), ...)       -- pc = running
```
Falling out of the outer loop is the terminal state `done`. -/

/-- Program counter of the worker loop. -/
inductive PC where
  | outerCheck
  | innerCheck
  | doClear
  | running
  | done
  deriving DecidableEq

/-- Worker-visible state: program counter, the shared `rsync_event` flag,
the shared `shutdown_event` flag, and the count of executor invocations
performed so far (the observable trace of `subprocess.call`). -/
structure WState where
  pc : PC
  flag : Bool
  shutdown : Bool
  runs : Nat
  deriving DecidableEq

/-- One worker step.  `exitCode` is the value returned by
`subprocess.call`; the Python source discards it, which is why the
post-state does not depend on it. -/
def workerStepE (exitCode : Int) (s : WState) : WState :=
  match s.pc with
  | .outerCheck => if s.shutdown then { s with pc := .done } else { s with pc := .innerCheck }
  | .innerCheck => if s.shutdown || s.flag then { s with pc := .doClear } else s
  | .doClear => { s with flag := false, pc := .running }
  | .running =>
      let _ := exitCode
      { s with runs := s.runs + 1, pc := .outerCheck }
  | .done => s

/-- A worker step with an arbitrary fixed exit code (justified by
`exit_status_ignored`: the post-state is independent of it). -/
def workerStep : WState → WState := workerStepE 0

/-- Interleaved actions: a worker step, a watcher-thread `raise()`
(`rsync_event.set()`), or the shutdown flag being set
(`shutdown_event.set()` by `main`). -/
inductive Act where
  | worker
  | raise
  | shutdown
  deriving DecidableEq

/-- Effect of one action on the state. -/
def step : Act → WState → WState
  | .worker, s => workerStep s
  | .raise, s => { s with flag := eventSet s.flag }
  | .shutdown, s => { s with shutdown := true }

/-- Run a schedule of actions from a state. -/
def exec : List Act → WState → WState
  | [], s => s
  | a :: as, s => exec as (step a s)

/-- Initial worker state: the thread starts at the outer check with both
events clear and no run performed. -/
def initW : WState := ⟨.outerCheck, false, false, 0⟩

/-- Number of `raise()` actions in a schedule. -/
def raises : List Act → Nat
  | [] => 0
  | Act.raise :: as => raises as + 1
  | _ :: as => raises as

/-- Potential used for the shutdown bound: states strictly inside the loop
body can contribute at most one further run. -/
def potDown (s : WState) : Nat :=
  match s.pc with
  | .innerCheck => 1
  | .doClear => 1
  | .running => 1
  | .outerCheck => 0
  | .done => 0

/-- Potential used for the no-shutdown run bound: a committed loop-body
pass plus a still-pending flag (a flag observed at `doClear` is consumed by
the committed pass and yields no extra run). -/
def pot2 (s : WState) : Nat :=
  (if s.pc = PC.doClear ∨ s.pc = PC.running then 1 else 0) +
    (if s.flag = true ∧ s.pc ≠ PC.doClear then 1 else 0)

/-! ### Micro-interleaving of the non-atomic take (lines 117-121)

The worker's take is two separate atomic operations on the shared
`rsync_event`: the `is_set()` read in the inner `while` condition, and the
`clear()` after the loop.  The watcher's `set()` may interleave anywhere.
`microRun` executes such an interleaving, recording the value returned by
each `is_set()` read. -/

/-- Atomic micro-operations on the shared flag: the worker's `is_set()`
read, the worker's `clear()`, and the watcher's `set()`. -/
inductive MicroAct where
  | observe
  | clear
  | mset
  deriving DecidableEq

/-- Execute an interleaving of micro-operations on the flag, returning the
final flag value and the list of values observed by the `is_set()` reads. -/
def microRun : List MicroAct → Bool → Bool × List Bool
  | [], f => (f, [])
  | MicroAct.observe :: as, f => ((microRun as f).1, f :: (microRun as f).2)
  | MicroAct.clear :: as, _ => microRun as false
  | MicroAct.mset :: as, _ => microRun as true

/-! ### Event-handler callbacks (`RSyncEventHandler`, lines 36-99)

Each callback produces one log line and calls `self.rsync()` exactly once;
`rsync()` performs `rsync_event.set()`.  Paths are `List Char`. -/

/-- A filesystem notification as watchdog delivers it: directory bit,
subject path, and (meaningful for moves only) destination path. -/
structure FsEvent where
  isDirectory : Bool
  srcPath : List Char
  destPath : List Char

/-- `_get_what` (lines 32-33). -/
def getWhat (e : FsEvent) : List Char :=
  if e.isDirectory then "directory".toList else "file".toList

/-- Observable effect of one handler callback: the log line it emits and
how many `raise()` calls it performs. -/
structure HandlerEffect where
  logLine : List Char
  raiseCalls : Nat

/-- `on_moved` (lines 50-63): logs source and destination, one `rsync()`. -/
def onMoved (e : FsEvent) : HandlerEffect :=
  ⟨"Moved ".toList ++ getWhat e ++ ": from ".toList ++ e.srcPath ++
      " to ".toList ++ e.destPath, 1⟩

/-- `on_created` (lines 65-74). -/
def onCreated (e : FsEvent) : HandlerEffect :=
  ⟨"Created ".toList ++ getWhat e ++ ": ".toList ++ e.srcPath, 1⟩

/-- `on_deleted` (lines 76-85). -/
def onDeleted (e : FsEvent) : HandlerEffect :=
  ⟨"Deleted ".toList ++ getWhat e ++ ": ".toList ++ e.srcPath, 1⟩

/-- `on_modified` (lines 87-96). -/
def onModified (e : FsEvent) : HandlerEffect :=
  ⟨"Modified ".toList ++ getWhat e ++ ": ".toList ++ e.srcPath, 1⟩

/-- Apply a handler's raise calls to the shared flag. -/
def applyHandler (h : HandlerEffect) (flag : Bool) : Bool :=
  raiseN h.raiseCalls flag

/-! ### Startup and shutdown sequencing of `main` (lines 139-196) -/

/-- The successive externally visible actions of `main` during startup, in
source order. -/
inductive StartAct where
  | checkRsync
  | printMissingRsync
  | exitOne
  | readOptsFile
  | createEvents
  | installHandlers
  | startWorker
  | constructHandler
  | startObserver
  | enterMainLoop
  deriving DecidableEq

/-- Startup trace of `main` as a function of the exit status of
`subprocess.call(['which', 'rsync'])` (lines 155-196): on a non-zero
status it prints the error and does `sys.exit(1)`; otherwise it reads the
options file, creates the two events, installs the SIGTERM/SIGINT
handlers, starts `RSyncThread`, constructs `RSyncEventHandler` (which
performs the initial `rsync()`), starts the observer and enters the sleep
loop. -/
def startupTrace (whichExit : Int) : List StartAct :=
  StartAct.checkRsync ::
    (if whichExit ≠ 0 then
      [StartAct.printMissingRsync, StartAct.exitOne]
    else
      [StartAct.readOptsFile, StartAct.createEvents, StartAct.installHandlers,
        StartAct.startWorker, StartAct.constructHandler, StartAct.startObserver,
        StartAct.enterMainLoop])

/-- The error message printed when `which rsync` fails (lines 156-160). -/
def missingRsyncMessage : String :=
  "Can\x27t find the \x60rsync\x60 program, you need to install it."

/-- The actions `main` performs once the signal handler's
`ShutdownException` reaches the `try` block around the sleep loop (lines
190-196): `shutdown_event.set()`, `observer.stop()`, `observer.join()`.
There is no `rsync.join()` in the source. -/
inductive MainAct where
  | setShutdownEvt
  | stopObserver
  | joinObserver
  | joinWorker
  deriving DecidableEq

/-- Shutdown action trace of `main` (the `except ShutdownException` branch
followed by `observer.join()`). -/
def shutdownSequence : List MainAct :=
  [MainAct.setShutdownEvt, MainAct.stopObserver, MainAct.joinObserver]

/-- Process exit status after the shutdown path: `main` returns normally
after `observer.join()`, so the interpreter exits 0 (once the non-daemon
worker thread has finished). -/
def signalExitCode : Nat := 0

/-! ### Option-file concatenation and command tokenization (lines 163-166
and 127-136)

```
opts = map(str.strip, opts_file)
rsync_options += u' '.join(opts)
...
cmd = 'rsync -avP {} {} {}'.format(self.rsync_options, local_path, remote_path)
subprocess.call(shlex.split(cmd), ...)
```
Strings are `List Char`; `tokens` models `shlex.split` on command lines
containing no quoting metacharacters (splitting on runs of whitespace). -/

/-- Whitespace as recognised by Python's `str.strip` and `shlex.split`
(the characters that can occur in option strings). -/
def isWS (c : Char) : Bool :=
  c = ' ' || c = '\t' || c = '\n' || c = '\r'

/-- Python `str.strip()`: drop whitespace from both ends. -/
def pyStrip (l : List Char) : List Char :=
  ((l.dropWhile isWS).reverse.dropWhile isWS).reverse

/-- Python `' '.join(...)`: concatenate with a single space between
consecutive elements. -/
def joinWith : List (List Char) → List Char
  | [] => []
  | [x] => x
  | x :: xs => x ++ ' ' :: joinWith xs

/-- The string appended to `rsync_options` when an options file is given:
the file's lines, each stripped, joined by single spaces. -/
def joinOpts (lines : List (List Char)) : List Char :=
  joinWith (lines.map pyStrip)

/-- `rsync_options += u' '.join(opts)` (line 166): the joined file options
are appended directly to the literal options string, with no separating
space. -/
def combineOpts (lit : List Char) (lines : List (List Char)) : List Char :=
  lit ++ joinOpts lines

/-- Whitespace tokenizer worker: `goTok acc cs` scans `cs` with the
(reversed) characters of the current partial token in `acc`, returning the
completed tokens and the final accumulator. -/
def goTok : List Char → List Char → List (List Char) × List Char
  | acc, [] => ([], acc)
  | [], c :: cs => if isWS c then goTok [] cs else goTok [c] cs
  | a0 :: acc, c :: cs =>
      if isWS c then
        ((a0 :: acc).reverse :: (goTok [] cs).1, (goTok [] cs).2)
      else
        goTok (c :: a0 :: acc) cs

/-- Emit the trailing partial token, if any. -/
def flushTok : List Char → List (List Char)
  | [] => []
  | a0 :: acc => [(a0 :: acc).reverse]

/-- Whitespace tokenization of a string: the behaviour of `shlex.split` on
input free of quoting metacharacters. -/
def tokens (s : List Char) : List (List Char) :=
  (goTok [] s).1 ++ flushTok (goTok [] s).2

/-- Prepend `t` onto the first token of a token list. -/
def fuseFirst (t : List Char) : List (List Char) → List (List Char)
  | [] => []
  | u :: us => (t ++ u) :: us

/-- The command line built at line 134:
`'rsync -avP {} {} {}'.format(rsync_options, local_path, remote_path)`. -/
def rsyncCmd (opts localPath remotePath : List Char) : List Char :=
  "rsync -avP ".toList ++ opts ++ ' ' :: localPath ++ ' ' :: remotePath

/-! ## Helper lemmas about the worker machine -/

theorem exec_append (xs ys : List Act) (s : WState) :
    exec (xs ++ ys) s = exec ys (exec xs s) := by
  induction xs generalizing s with
  | nil => rfl
  | cons a xs ih => simp [exec, ih]

/-- A worker step never clears the shutdown flag (only `main` writes it,
and only to set it). -/
theorem step_shutdown_mono (a : Act) (s : WState) (h : s.shutdown = true) :
    (step a s).shutdown = true := by
  cases a with
  | worker =>
      simp only [step, workerStep, workerStepE]
      cases s.pc <;> simp_all
  | raise => simpa [step]
  | shutdown => simp [step]

theorem step_potDown (a : Act) (s : WState) (h : s.shutdown = true) :
    (step a s).runs + potDown (step a s) ≤ s.runs + potDown s := by
  cases a with
  | worker =>
      simp only [step, workerStep, workerStepE]
      cases hpc : s.pc <;> simp_all [potDown]
  | raise => simp [step, potDown]
  | shutdown => simp [step, potDown]

theorem exec_potDown (acts : List Act) (s : WState) (h : s.shutdown = true) :
    (exec acts s).runs + potDown (exec acts s) ≤ s.runs + potDown s := by
  induction acts generalizing s with
  | nil => exact Nat.le_refl _
  | cons a as ih =>
      calc (exec (a :: as) s).runs + potDown (exec (a :: as) s)
          ≤ (step a s).runs + potDown (step a s) :=
            ih (step a s) (step_shutdown_mono a s h)
        _ ≤ s.runs + potDown s := step_potDown a s h

theorem potDown_le_one (s : WState) : potDown s ≤ 1 := by
  unfold potDown; cases s.pc <;> simp

/-- Once `shutdown_event` is set, four worker steps suffice to reach the
terminal state from anywhere. -/
theorem shutdown_done_in_four (s : WState) (h : s.shutdown = true) :
    (exec (List.replicate 4 Act.worker) s).pc = PC.done := by
  obtain ⟨pc, flag, sd, runs⟩ := s
  subst h
  cases pc <;> rfl

/-- The terminal state is absorbing for worker steps. -/
theorem done_absorbing (s : WState) (h : s.pc = PC.done) :
    step Act.worker s = s := by
  simp [step, workerStep, workerStepE, h]

/-- Worker-only steps from the quiescent wait state (inner check, no flag,
no shutdown) change nothing: the loop just sleeps. -/
theorem spin_innerCheck (m : Nat) (n : Nat) :
    exec (List.replicate m Act.worker) ⟨PC.innerCheck, false, false, n⟩ =
      ⟨PC.innerCheck, false, false, n⟩ := by
  induction m with
  | zero => rfl
  | succ m ih => simpa [List.replicate_succ, exec, step, workerStep, workerStepE] using ih

/-- Worker-only steps from the outer check with no flag and no shutdown
never perform a run. -/
theorem spin_outerCheck (m : Nat) (n : Nat) :
    (exec (List.replicate m Act.worker) ⟨PC.outerCheck, false, false, n⟩).runs = n := by
  cases m with
  | zero => rfl
  | succ m =>
      have h : exec (List.replicate (m + 1) Act.worker) ⟨PC.outerCheck, false, false, n⟩ =
          exec (List.replicate m Act.worker) ⟨PC.innerCheck, false, false, n⟩ := by
        simp [List.replicate_succ, exec, step, workerStep, workerStepE]
      rw [h, spin_innerCheck m n]

/-- A nonempty block of `raise()` calls leaves the flag set and changes
nothing else (idempotence of `Event.set`). -/
theorem raise_pump (k : Nat) (s : WState) (h : 1 ≤ k) :
    exec (List.replicate k Act.raise) s = { s with flag := true } := by
  induction k generalizing s with
  | zero => omega
  | succ k ih =>
      cases Nat.eq_zero_or_pos k with
      | inl h0 => subst h0; rfl
      | inr hpos =>
          have h1 : exec (List.replicate (k + 1) Act.raise) s =
              exec (List.replicate k Act.raise) { s with flag := true } := by
            simp [List.replicate_succ, exec, step, eventSet]
          rw [h1, ih _ hpos]

theorem raises_cons (a : Act) (as : List Act) :
    raises (a :: as) = raises [a] + raises as := by
  cases a <;> simp [raises] <;> omega

/-- While no shutdown is delivered, each step increases the
runs-plus-potential measure by at most the number of raises it contains,
and the shutdown flag stays clear. -/
theorem step_pot2 (a : Act) (s : WState) (ha : a ≠ Act.shutdown)
    (h : s.shutdown = false) :
    (step a s).runs + pot2 (step a s) ≤ s.runs + pot2 s + raises [a] ∧
      (step a s).shutdown = false := by
  obtain ⟨pc, flag, sd, runs⟩ := s
  simp only at h
  subst h
  cases a with
  | worker =>
      cases pc <;> cases flag <;>
        simp [step, workerStep, workerStepE, pot2, raises]
  | raise =>
      cases pc <;> cases flag <;>
        simp [step, pot2, raises, eventSet]
  | shutdown => exact absurd rfl ha

theorem exec_pot2 (acts : List Act) (s : WState) (hns : Act.shutdown ∉ acts)
    (h : s.shutdown = false) :
    (exec acts s).runs + pot2 (exec acts s) ≤ s.runs + pot2 s + raises acts ∧
      (exec acts s).shutdown = false := by
  induction acts generalizing s with
  | nil => exact ⟨Nat.le_add_right _ _, h⟩
  | cons a as ih =>
      have ha : a ≠ Act.shutdown := fun he => hns (he ▸ List.mem_cons_self a as)
      have hs := step_pot2 a s ha h
      have h2 := ih (step a s) (fun hm => hns (List.mem_cons_of_mem a hm)) hs.2
      refine ⟨?_, h2.2⟩
      have hc := raises_cons a as
      calc (exec (a :: as) s).runs + pot2 (exec (a :: as) s)
          ≤ (step a s).runs + pot2 (step a s) + raises as := h2.1
        _ ≤ s.runs + pot2 s + raises [a] + raises as := by
            exact Nat.add_le_add_right hs.1 _
        _ = s.runs + pot2 s + raises (a :: as) := by omega

/-! ## Helper lemmas about stripping and tokenization -/

theorem flushTok_of_ne (l : List Char) (h : l ≠ []) : flushTok l = [l.reverse] := by
  cases l with
  | nil => exact absurd rfl h
  | cons a0 t => rfl

/-- Scanning a concatenation threads the accumulator through. -/
theorem goTok_append (a b : List Char) (acc : List Char) :
    goTok acc (a ++ b) =
      ((goTok acc a).1 ++ (goTok (goTok acc a).2 b).1,
        (goTok (goTok acc a).2 b).2) := by
  induction a generalizing acc with
  | nil => simp [goTok]
  | cons c a ih =>
      by_cases hc : isWS c
      · cases acc with
        | nil => simp [goTok, hc, ih]
        | cons a0 acc2 => simp [goTok, hc, ih]
      · cases acc with
        | nil => simp [goTok, hc, ih]
        | cons a0 acc2 => simp [goTok, hc, ih]

/-- Widening a nonempty accumulator by `ext` prepends `ext.reverse` onto
the first token that gets flushed, and onto the final accumulator if no
flush ever happens. -/
theorem goTok_acc_append (b : List Char) (acc ext : List Char) (h : acc ≠ []) :
    (goTok (acc ++ ext) b).1 = fuseFirst ext.reverse (goTok acc b).1 ∧
    (goTok (acc ++ ext) b).2 =
      (if (goTok acc b).1 = [] then (goTok acc b).2 ++ ext
        else (goTok acc b).2) := by
  induction b generalizing acc with
  | nil => simp [goTok, fuseFirst]
  | cons c cs ih =>
      obtain ⟨a0, acc2, rfl⟩ : ∃ a0 acc2, acc = a0 :: acc2 := by
        cases acc with
        | nil => exact absurd rfl h
        | cons a0 acc2 => exact ⟨a0, acc2, rfl⟩
      by_cases hc : isWS c
      · simp [goTok, hc, fuseFirst, List.reverse_append]
      · have hrec := ih (c :: a0 :: acc2) (by simp)
        simpa [goTok, hc] using hrec

/-- If the scanned string ends in a non-whitespace character, the final
accumulator is nonempty. -/
theorem goTok_acc_ne_nil (a : List Char) (acc : List Char) (c : Char)
    (hl : a.getLast? = some c) (hc : isWS c = false) : (goTok acc a).2 ≠ [] := by
  induction a generalizing acc with
  | nil => simp at hl
  | cons d t ih =>
      cases t with
      | nil =>
          have hd : d = c := by simpa using hl
          subst hd
          cases acc <;> simp [goTok, hc]
      | cons e t2 =>
          have hl2 : (e :: t2).getLast? = some c := by
            rwa [List.getLast?_cons_cons] at hl
          cases acc with
          | nil =>
              by_cases hd : isWS d
              · simpa [goTok, hd] using ih [] hl2
              · simpa [goTok, hd] using ih [d] hl2
          | cons a0 acc2 =>
              by_cases hd : isWS d
              · simpa [goTok, hd] using ih [] hl2
              · simpa [goTok, hd] using ih (d :: a0 :: acc2) hl2

/-- If no token is ever flushed while scanning from a nonempty
accumulator, the whole input is accumulated. -/
theorem goTok_no_flush (cs : List Char) (acc : List Char) (h : acc ≠ [])
    (h1 : (goTok acc cs).1 = []) : (goTok acc cs).2 = cs.reverse ++ acc := by
  induction cs generalizing acc with
  | nil => simp [goTok]
  | cons c cs ih =>
      obtain ⟨a0, acc2, rfl⟩ : ∃ a0 acc2, acc = a0 :: acc2 := by
        cases acc with
        | nil => exact absurd rfl h
        | cons a0 acc2 => exact ⟨a0, acc2, rfl⟩
      by_cases hc : isWS c
      · simp [goTok, hc] at h1
      · have hrec := ih (c :: a0 :: acc2) (by simp)
          (by simpa [goTok, hc] using h1)
        simpa [goTok, hc, List.append_assoc] using hrec

/-- The head of a `dropWhile` result fails the predicate. -/
theorem dropWhile_head_not (p : Char → Bool) (l : List Char) (d : Char)
    (t : List Char) (h : l.dropWhile p = d :: t) : p d = false := by
  induction l with
  | nil => simp [List.dropWhile] at h
  | cons c cs ih =>
      by_cases hc : p c
      · rw [List.dropWhile_cons] at h
        simp [hc] at h
        exact ih h
      · rw [List.dropWhile_cons] at h
        simp [hc] at h
        obtain ⟨rfl, -⟩ := h
        simpa using hc

/-- The head of a nonempty stripped string is not whitespace. -/
theorem pyStrip_head (l : List Char) (d : Char) (t : List Char)
    (h : pyStrip l = d :: t) : isWS d = false := by
  have h2 : (l.dropWhile isWS).reverse.takeWhile isWS ++
      (l.dropWhile isWS).reverse.dropWhile isWS = (l.dropWhile isWS).reverse :=
    List.takeWhile_append_dropWhile isWS (l.dropWhile isWS).reverse
  have h3 := congrArg List.reverse h2
  rw [List.reverse_append, List.reverse_reverse] at h3
  have hx : l.dropWhile isWS =
      d :: (t ++ ((l.dropWhile isWS).reverse.takeWhile isWS).reverse) := by
    conv_lhs => rw [← h3]
    unfold pyStrip at h
    rw [h]
    rfl
  exact dropWhile_head_not isWS l d _ hx

/-- The joined option string starts with the stripped first line. -/
theorem joinOpts_cons (l0 : List Char) (rest : List (List Char)) :
    ∃ tl, joinOpts (l0 :: rest) = pyStrip l0 ++ tl := by
  cases rest with
  | nil => exact ⟨[], by simp [joinOpts, joinWith]⟩
  | cons l1 rest2 =>
      exact ⟨' ' :: joinWith ((l1 :: rest2).map pyStrip),
        by simp [joinOpts, joinWith]⟩

/-- Token fusion at a seam with no whitespace: if `a` ends in a
non-whitespace character and `b` starts with one, tokenizing `a ++ b`
yields the tokens of `a` except that its last token is glued onto the
first token of `b`. -/
theorem tokens_fuse (a b : List Char) (c d : Char) (b2 : List Char)
    (hla : a.getLast? = some c) (hcWS : isWS c = false)
    (hb : b = d :: b2) (hdWS : isWS d = false) :
    ∃ ts t u us, tokens a = ts ++ [t] ∧ tokens b = u :: us ∧
      tokens (a ++ b) = ts ++ (t ++ u) :: us := by
  subst hb
  have hane : (goTok [] a).2 ≠ [] := goTok_acc_ne_nil a [] c hla hcWS
  have htokA : tokens a = (goTok [] a).1 ++ [(goTok [] a).2.reverse] := by
    unfold tokens
    rw [flushTok_of_ne _ hane]
  have hstep : goTok (goTok [] a).2 (d :: b2) =
      goTok ([d] ++ (goTok [] a).2) b2 := by
    obtain ⟨a0, acc2, hA⟩ : ∃ a0 acc2, (goTok [] a).2 = a0 :: acc2 := by
      cases hA : (goTok [] a).2 with
      | nil => exact absurd hA hane
      | cons a0 acc2 => exact ⟨a0, acc2, rfl⟩
    rw [hA]
    simp [goTok, hdWS]
  have hfirst : goTok [] (d :: b2) = goTok [d] b2 := by simp [goTok, hdWS]
  have hacc := goTok_acc_append b2 [d] (goTok [] a).2 (by simp)
  have htokB : tokens (d :: b2) =
      (goTok [d] b2).1 ++ flushTok (goTok [d] b2).2 := by
    unfold tokens
    rw [hfirst]
  have htokAB : tokens (a ++ d :: b2) =
      (goTok [] a).1 ++ ((goTok ([d] ++ (goTok [] a).2) b2).1 ++
        flushTok (goTok ([d] ++ (goTok [] a).2) b2).2) := by
    unfold tokens
    rw [goTok_append, hstep, List.append_assoc]
  cases hX1 : (goTok [d] b2).1 with
  | nil =>
      have hX2 : (goTok [d] b2).2 = b2.reverse ++ [d] :=
        goTok_no_flush b2 [d] (by simp) hX1
      refine ⟨(goTok [] a).1, (goTok [] a).2.reverse, d :: b2, [], htokA, ?_, ?_⟩
      · rw [htokB, hX1, hX2, flushTok_of_ne _ (by simp)]
        simp
      · rw [htokAB, hacc.1, hacc.2, hX1, hX2]
        have hne2 : (b2.reverse ++ [d]) ++ (goTok [] a).2 ≠ [] := by
          simp
        rw [if_pos rfl, flushTok_of_ne _ hne2]
        simp [fuseFirst, List.reverse_append]
  | cons u0 us0 =>
      refine ⟨(goTok [] a).1, (goTok [] a).2.reverse, u0,
        us0 ++ flushTok (goTok [d] b2).2, htokA, ?_, ?_⟩
      · rw [htokB, hX1]
        simp
      · rw [htokAB, hacc.1, hacc.2, hX1]
        rw [if_neg (by simp)]
        simp [fuseFirst, List.append_assoc]

/-- Tokenizing across an explicit separating space splits cleanly,
whatever surrounds it. -/
theorem tokens_append_space (a b : List Char) :
    tokens (a ++ ' ' :: b) = tokens a ++ tokens b := by
  have hsp : isWS ' ' = true := by decide
  unfold tokens
  rw [goTok_append]
  cases hA : (goTok [] a).2 with
  | nil => simp [goTok, hsp, flushTok]
  | cons a0 acc2 => simp [goTok, hsp, flushTok, List.append_assoc]

/-! ## Claim theorems -/

/-- C1, counterexample.  The claim states that once `shutdown_event` is
set no new synchronization run is started and no pending signal is
consumed.  In the source, when the inner wait loop exits because
`shutdown_event` was set, the loop body nevertheless continues: it clears
`rsync_event` and invokes the executor once more.  Concretely: the worker
is waiting (inner check), a raise arrives, then shutdown is set; three
further worker steps clear the pending flag and perform a run, after
shutdown was already set with zero runs performed. -/
theorem shutdown_triggers_final_run :
    (exec [Act.worker, Act.raise, Act.shutdown] initW).shutdown = true ∧
    (exec [Act.worker, Act.raise, Act.shutdown] initW).runs = 0 ∧
    (exec [Act.worker, Act.raise, Act.shutdown] initW).flag = true ∧
    (exec ([Act.worker, Act.raise, Act.shutdown] ++
        [Act.worker, Act.worker, Act.worker]) initW).runs = 1 ∧
    (exec ([Act.worker, Act.raise, Act.shutdown] ++
        [Act.worker, Act.worker, Act.worker]) initW).flag = false := by
  decide

/-- C1, amended.  Once `shutdown_event` is set, the worker performs at
most one further synchronization run (it does start one final run if it
observes shutdown in its wait loop, consuming any pending signal into that
run); within four further worker steps it reaches the terminal state,
which is absorbing. -/
theorem shutdown_at_most_one_more_run (acts : List Act) (s : WState)
    (h : s.shutdown = true) :
    (exec acts s).runs ≤ s.runs + 1 ∧
    (exec (List.replicate 4 Act.worker) s).pc = PC.done ∧
    ∀ t : WState, t.pc = PC.done → step Act.worker t = t := by
  refine ⟨?_, shutdown_done_in_four s h, fun t ht => done_absorbing t ht⟩
  have hb := exec_potDown acts s h
  have h1 := potDown_le_one (exec acts s)
  have h2 := potDown_le_one s
  omega

/-- Witness for `shutdown_at_most_one_more_run` at a concrete state and
schedule. -/
theorem shutdown_at_most_one_more_run_witness :
    (⟨PC.innerCheck, true, true, 0⟩ : WState).shutdown = true ∧
    (exec [Act.worker, Act.worker, Act.worker]
        ⟨PC.innerCheck, true, true, 0⟩).runs ≤ 0 + 1 :=
  ⟨rfl, (shutdown_at_most_one_more_run [Act.worker, Act.worker, Act.worker]
      ⟨PC.innerCheck, true, true, 0⟩ rfl).1⟩

/-- C2.  For any N ≥ 1 raises before a single take, that take observes
pending and clears it; an immediately following take with no intervening
raise observes nothing; and `set()` is idempotent. -/
theorem coalescing_take (n : Nat) (s b : Bool) (h : 1 ≤ n) :
    take (raiseN n s) = (true, false) ∧
    take (take b).2 = (false, false) ∧
    eventSet (eventSet s) = eventSet s := by
  refine ⟨?_, rfl, rfl⟩
  cases n with
  | zero => omega
  | succ n => rfl

/-- Witness for `coalescing_take` at N = 2. -/
theorem coalescing_take_witness :
    1 ≤ 2 ∧ take (raiseN 2 false) = (true, false) :=
  ⟨by decide, (coalescing_take 2 false true (by decide)).1⟩

/-- C3, failing interleaving.  The worker's take is the `is_set()` read
followed later by `clear()`; these are two separate atomic operations.  In
the interleaving below, a `set()` lands between the read and the clear:
the clear wipes it, and the next take observes false — the raise was
silently dropped at the flag level, contradicting the claim that a raise
concurrent with an in-progress take is observed by the next take. -/
theorem concurrent_raise_during_take_lost :
    microRun [MicroAct.mset, MicroAct.observe, MicroAct.mset, MicroAct.clear,
        MicroAct.observe, MicroAct.clear] false = (false, [true, false]) := by
  decide

/-- C4.  A burst of K ≥ 1 raises all arriving while one run is executing
(program counter `running`, flag already cleared at `doClear`) leaves the
flag pending when that run finishes, and leads to exactly one additional
run: after the in-flight run completes the count is r + 1 with the flag
still set, one further loop iteration makes it r + 2, and any number of
further worker steps with no new raise leave it at r + 2. -/
theorem burst_one_additional_run (k r m : Nat) (h : 1 ≤ k) :
    (exec (List.replicate k Act.raise ++ [Act.worker])
        ⟨PC.running, false, false, r⟩).runs = r + 1 ∧
    (exec (List.replicate k Act.raise ++ [Act.worker])
        ⟨PC.running, false, false, r⟩).flag = true ∧
    (exec (List.replicate k Act.raise ++ List.replicate (5 + m) Act.worker)
        ⟨PC.running, false, false, r⟩).runs = r + 2 := by
  refine ⟨?_, ?_, ?_⟩ <;> rw [exec_append, raise_pump k _ h]
  · rfl
  · rfl
  · show (exec (List.replicate (5 + m) Act.worker)
        ⟨PC.running, true, false, r⟩).runs = r + 2
    rw [List.replicate_add, exec_append]
    have h5 : exec (List.replicate 5 Act.worker)
        (⟨PC.running, true, false, r⟩ : WState) =
        ⟨PC.outerCheck, false, false, r + 2⟩ := rfl
    rw [h5, spin_outerCheck]

/-- Witness for `burst_one_additional_run` at K = 1, r = 0. -/
theorem burst_one_additional_run_witness :
    1 ≤ 1 ∧
    (exec (List.replicate 1 Act.raise ++ List.replicate (5 + 0) Act.worker)
        ⟨PC.running, false, false, 0⟩).runs = 0 + 2 :=
  ⟨by decide, (burst_one_additional_run 1 0 0 (by decide)).2.2⟩

/-- C5.  With zero filesystem activity the only raise is the one the
`RSyncEventHandler` constructor performs: any schedule with at most one
raise and no shutdown yields at most one run; the schedule consisting of
that raise followed by worker steps yields exactly one run no matter how
long the worker keeps polling; and in `main`'s startup order the worker is
started before the handler (hence before its initial raise) is
constructed. -/
theorem initial_single_sync (acts : List Act) (m : Nat)
    (hns : Act.shutdown ∉ acts) (hc : raises acts ≤ 1) :
    (exec acts initW).runs ≤ 1 ∧
    (exec (Act.raise :: List.replicate (4 + m) Act.worker) initW).runs = 1 ∧
    startupTrace 0 = [StartAct.checkRsync, StartAct.readOptsFile,
      StartAct.createEvents, StartAct.installHandlers, StartAct.startWorker,
      StartAct.constructHandler, StartAct.startObserver, StartAct.enterMainLoop] := by
  refine ⟨?_, ?_, by decide⟩
  · have hb := exec_pot2 acts initW hns rfl
    have h0 : pot2 initW = 0 := rfl
    have h00 : initW.runs = 0 := rfl
    omega
  · show (exec (List.replicate (4 + m) Act.worker)
        ⟨PC.outerCheck, true, false, 0⟩).runs = 1
    rw [List.replicate_add, exec_append]
    have h4 : exec (List.replicate 4 Act.worker)
        (⟨PC.outerCheck, true, false, 0⟩ : WState) =
        ⟨PC.outerCheck, false, false, 1⟩ := rfl
    rw [h4, spin_outerCheck]

/-- Witness for `initial_single_sync` on the concrete startup schedule. -/
theorem initial_single_sync_witness :
    (Act.shutdown ∉ [Act.raise, Act.worker, Act.worker, Act.worker, Act.worker] ∧
      raises [Act.raise, Act.worker, Act.worker, Act.worker, Act.worker] ≤ 1) ∧
    (exec [Act.raise, Act.worker, Act.worker, Act.worker, Act.worker] initW).runs ≤ 1 :=
  ⟨⟨by decide, by decide⟩,
    (initial_single_sync [Act.raise, Act.worker, Act.worker, Act.worker, Act.worker]
      0 (by decide) (by decide)).1⟩

/-- C6, counterexample.  The claim states that on the clean-shutdown path
the main flow waits for the SyncWorker to terminate.  The source's
shutdown path is `shutdown_event.set()`, `observer.stop()`,
`observer.join()`: there is no join of the `RSyncThread` worker. -/
theorem main_does_not_join_worker : MainAct.joinWorker ∉ shutdownSequence := by
  decide

/-- C6, amended.  On a terminate or interrupt signal delivered in the main
sleep loop, the handler's exception reaches the loop and `main` sets
`shutdown_event`, stops the observer and joins the observer — it does not
itself join the worker; the worker terminates on its own because
`shutdown_event` is set (reaching its terminal state within four steps),
and the process exits with status 0 once the non-daemon worker thread has
finished. -/
theorem signal_shutdown_path :
    shutdownSequence = [MainAct.setShutdownEvt, MainAct.stopObserver,
      MainAct.joinObserver] ∧
    signalExitCode = 0 ∧
    ∀ s : WState, s.shutdown = true →
      (exec (List.replicate 4 Act.worker) s).pc = PC.done := by
  exact ⟨rfl, rfl, fun s h => shutdown_done_in_four s h⟩

/-- Witness for `signal_shutdown_path` at a concrete post-shutdown state. -/
theorem signal_shutdown_path_witness :
    (⟨PC.innerCheck, true, true, 0⟩ : WState).shutdown = true ∧
    (exec (List.replicate 4 Act.worker) ⟨PC.innerCheck, true, true, 0⟩).pc = PC.done :=
  ⟨rfl, signal_shutdown_path.2.2 ⟨PC.innerCheck, true, true, 0⟩ rfl⟩

/-- C7.  If `which rsync` exits non-zero, `main` prints the error message
and exits 1 before the worker or the observer is started; if it exits
zero, startup proceeds to start both and never reaches `sys.exit(1)`.  The
message names the `rsync` program. -/
theorem missing_rsync_fail_fast (w : Int) :
    (w ≠ 0 → startupTrace w = [StartAct.checkRsync, StartAct.printMissingRsync,
        StartAct.exitOne] ∧
      StartAct.startWorker ∉ startupTrace w ∧
      StartAct.startObserver ∉ startupTrace w) ∧
    (w = 0 → StartAct.startWorker ∈ startupTrace w ∧
      StartAct.startObserver ∈ startupTrace w ∧
      StartAct.exitOne ∉ startupTrace w) ∧
    (∃ u v, u ++ "rsync".toList ++ v = missingRsyncMessage.toList) := by
  refine ⟨?_, ?_, ?_⟩
  · intro hw
    have ht : startupTrace w = [StartAct.checkRsync, StartAct.printMissingRsync,
        StartAct.exitOne] := by
      simp [startupTrace, hw]
    exact ⟨ht, by rw [ht]; decide, by rw [ht]; decide⟩
  · intro hw
    subst hw
    exact ⟨by decide, by decide, by decide⟩
  · exact ⟨"Can\x27t find the \x60".toList,
      "\x60 program, you need to install it.".toList, by decide⟩

/-- Witness for `missing_rsync_fail_fast` at concrete statuses 1 and 0. -/
theorem missing_rsync_fail_fast_witness :
    ((1 : Int) ≠ 0 ∧ startupTrace 1 = [StartAct.checkRsync,
        StartAct.printMissingRsync, StartAct.exitOne]) ∧
    ((0 : Int) = 0 ∧ StartAct.startWorker ∈ startupTrace 0) :=
  ⟨⟨by decide, ((missing_rsync_fail_fast 1).1 (by decide)).1⟩,
    ⟨rfl, ((missing_rsync_fail_fast 0).2.1 rfl).1⟩⟩

/-- C8.  The exit status returned by `subprocess.call` is discarded: the
worker's post-state is identical for any two exit codes, and after a run
the worker always returns to the outer check (no retry, no error state,
shutdown and flag untouched by the run itself). -/
theorem exit_status_ignored (e1 e2 : Int) (s : WState) (h : s.pc = PC.running) :
    workerStepE e1 s = workerStepE e2 s ∧
    (workerStepE e1 s).pc = PC.outerCheck ∧
    (workerStepE e1 s).runs = s.runs + 1 ∧
    (workerStepE e1 s).shutdown = s.shutdown ∧
    (workerStepE e1 s).flag = s.flag := by
  refine ⟨rfl, ?_, ?_, ?_, ?_⟩ <;> simp [workerStepE, h]

/-- Witness for `exit_status_ignored` with exit codes 23 and 0. -/
theorem exit_status_ignored_witness :
    (⟨PC.running, true, false, 3⟩ : WState).pc = PC.running ∧
    workerStepE 23 ⟨PC.running, true, false, 3⟩ =
      workerStepE 0 ⟨PC.running, true, false, 3⟩ :=
  ⟨rfl, (exit_status_ignored 23 0 ⟨PC.running, true, false, 3⟩ rfl).1⟩

/-- C9.  A move notification produces a single log line containing both
the source and the destination path, performs exactly one `raise()`, has
the same effect on the shared flag as a create, delete or modify
notification (namely `Event.set`), and its log line is distinct from every
create and delete log line. -/
theorem moved_event_logging (e e2 : FsEvent) (b : Bool) :
    (onMoved e).raiseCalls = 1 ∧
    (∃ u v, u ++ e.srcPath ++ v = (onMoved e).logLine) ∧
    (∃ u v, u ++ e.destPath ++ v = (onMoved e).logLine) ∧
    applyHandler (onMoved e) b = applyHandler (onCreated e2) b ∧
    applyHandler (onMoved e) b = applyHandler (onDeleted e2) b ∧
    applyHandler (onMoved e) b = applyHandler (onModified e2) b ∧
    applyHandler (onMoved e) b = eventSet b ∧
    (onMoved e).logLine ≠ (onCreated e2).logLine ∧
    (onMoved e).logLine ≠ (onDeleted e2).logLine := by
  refine ⟨rfl, ?_, ?_, rfl, rfl, rfl, rfl, ?_, ?_⟩
  · exact ⟨"Moved ".toList ++ getWhat e ++ ": from ".toList,
      " to ".toList ++ e.destPath, by simp [onMoved]⟩
  · exact ⟨"Moved ".toList ++ getWhat e ++ ": from ".toList ++ e.srcPath ++
      " to ".toList, [], by simp [onMoved]⟩
  · intro hEq
    have h1 : (onMoved e).logLine.head? = some 'M' := rfl
    have h2 : (onCreated e2).logLine.head? = some 'C' := rfl
    rw [hEq, h2] at h1
    exact absurd h1 (by decide)
  · intro hEq
    have h1 : (onMoved e).logLine.head? = some 'M' := rfl
    have h2 : (onDeleted e2).logLine.head? = some 'D' := rfl
    rw [hEq, h2] at h1
    exact absurd h1 (by decide)

/-- C10, counterexample.  The claim asserts token fusion for every
non-empty literal options string, but a literal that ends in whitespace,
such as `-a` followed by a space, stays a separate token: no fusion
happens for it, even with a non-empty options file. -/
theorem opts_trailing_space_no_fusion :
    ¬ ∃ ts t u us, tokens ("-a ".toList : List Char) = ts ++ [t] ∧
        tokens (joinOpts ["--delete\n".toList]) = u :: us ∧
        tokens (combineOpts "-a ".toList ["--delete\n".toList]) =
          ts ++ (t ++ u) :: us := by
  rintro ⟨ts, t, u, us, h1, h2, h3⟩
  have e1 : tokens ("-a ".toList : List Char) = [['-', 'a']] := by decide
  have e2 : tokens (joinOpts ["--delete\n".toList]) =
      [['-', '-', 'd', 'e', 'l', 'e', 't', 'e']] := by decide
  have e3 : tokens (combineOpts "-a ".toList ["--delete\n".toList]) =
      [['-', 'a'], ['-', '-', 'd', 'e', 'l', 'e', 't', 'e']] := by decide
  rw [e1] at h1
  rw [e2] at h2
  rw [e3] at h3
  cases ts with
  | cons a b => simp at h1
  | nil =>
      obtain ⟨rfl, rfl⟩ : u = ['-', '-', 'd', 'e', 'l', 'e', 't', 'e'] ∧ us = [] := by
        simpa using h2.symm
      simp at h3

/-- C10, amended.  When an options file is supplied, its lines are
stripped and joined by single spaces, and the result is appended to the
literal options string with no separating space.  Consequently, whenever
the literal options string ends in a non-whitespace character and the
first file line strips to something nonempty, the last literal token and
the first file fragment fuse into a single token of the tokenized options;
with an empty literal string the combined options are exactly the joined
stripped lines.  The final conjunct places the options inside the full
`rsync -avP {} {} {}` command line. -/
theorem opts_file_concatenation (lit l0 : List Char) (rest : List (List Char))
    (c : Char) (hlast : lit.getLast? = some c) (hcWS : isWS c = false)
    (hne : pyStrip l0 ≠ []) :
    (∃ ts t u us, tokens lit = ts ++ [t] ∧
        tokens (joinOpts (l0 :: rest)) = u :: us ∧
        tokens (combineOpts lit (l0 :: rest)) = ts ++ (t ++ u) :: us) ∧
    combineOpts [] (l0 :: rest) = joinOpts (l0 :: rest) ∧
    ∀ opts localPath remotePath : List Char,
      tokens (rsyncCmd opts localPath remotePath) =
        "rsync".toList :: "-avP".toList ::
          (tokens opts ++ (tokens localPath ++ tokens remotePath)) := by
  obtain ⟨d, t2, hps⟩ : ∃ d t2, pyStrip l0 = d :: t2 := by
    cases hq : pyStrip l0 with
    | nil => exact absurd hq hne
    | cons d t2 => exact ⟨d, t2, rfl⟩
  have hdWS : isWS d = false := pyStrip_head l0 d t2 hps
  obtain ⟨tl, hj⟩ := joinOpts_cons l0 rest
  have hjoined : joinOpts (l0 :: rest) = d :: (t2 ++ tl) := by
    rw [hj, hps]
    rfl
  refine ⟨?_, rfl, ?_⟩
  · have hf := tokens_fuse lit (joinOpts (l0 :: rest)) c d (t2 ++ tl)
      hlast hcWS hjoined hdWS
    simpa [combineOpts] using hf
  · intro opts localPath remotePath
    have hA : ("rsync -avP ".toList : List Char) =
        "rsync -avP".toList ++ [' '] := by decide
    have hshape : rsyncCmd opts localPath remotePath =
        "rsync -avP".toList ++ ' ' ::
          (opts ++ ' ' :: (localPath ++ ' ' :: remotePath)) := by
      simp [rsyncCmd, hA]
    rw [hshape, tokens_append_space, tokens_append_space, tokens_append_space]
    have h0 : tokens ("rsync -avP".toList) = ["rsync".toList, "-avP".toList] := by
      decide
    rw [h0]
    rfl

/-- Witness for `opts_file_concatenation` with literal options `-avz` and
an options file holding the single line `--delete`. -/
theorem opts_file_concatenation_witness :
    (("-avz".toList : List Char).getLast? = some 'z' ∧ isWS 'z' = false ∧
      pyStrip "--delete\n".toList ≠ []) ∧
    (∃ ts t u us, tokens "-avz".toList = ts ++ [t] ∧
        tokens (joinOpts ["--delete\n".toList]) = u :: us ∧
        tokens (combineOpts "-avz".toList ["--delete\n".toList]) =
          ts ++ (t ++ u) :: us) :=
  ⟨⟨by decide, by decide, by decide⟩,
    (opts_file_concatenation "-avz".toList "--delete\n".toList [] 'z'
      (by decide) (by decide) (by decide)).1⟩

end AutoRsync
